import Mathlib

/-!
Verification of the Nexora build pipeline against its specification.

This file gives a shallow embedding, in Lean 4, of the core subsystem of the
Nexora repository (streaming file extraction, package dependency detection,
sandbox synchronization, and the build-test-fix controller of
`backend/MVP_Agent.py`, `backend/mvp_builder_agent.py`, `backend/main.py`
and `backend/file_parser.py`), and proves or refutes the frozen claims
about that subsystem.

External effects (HTTP calls to the sandbox provider, shell command
execution, the generative model) are modelled as oracle parameters: the
embedded functions receive the outcome of each external call as an input,
and the control flow around those outcomes is translated line by line from
the Python source.  Wall-clock fields (durations, timestamps) are omitted.
-/

/- ### Shared string helpers (Python semantics) -/

/-- Python's whitespace class for `str.split()` / `str.strip()` / `\s`. -/
def pyIsWs (c : Char) : Bool :=
  c = ' ' || c = '\t' || c = '\n' || c = '\r' || c = '\x0b' || c = '\x0c'

/-- `listHasPre pat l` is true when `pat` occurs at the head of `l`. -/
def listHasPre : List Char → List Char → Bool
  | [], _ => true
  | _ :: _, [] => false
  | p :: ps, t :: ts => p = t && listHasPre ps ts

/-- `listHasSub pat l` is true when `pat` occurs contiguously anywhere in
`l`: the embedding of Python's `pat in s` for strings. -/
def listHasSub (pat : List Char) : List Char → Bool
  | [] => pat.isEmpty
  | t :: ts => listHasPre pat (t :: ts) || listHasSub pat ts

/-- Python `sub in s` on strings. -/
def strContains (s pat : String) : Bool := listHasSub pat.toList s.toList

/-- Split a character list at every character satisfying `p`, keeping
empty pieces — the primitive behind Python's `str.split(sep)`. -/
def splitOnPredList (p : Char → Bool) : List Char → List (List Char)
  | [] => [[]]
  | c :: cs =>
    let r := splitOnPredList p cs
    if p c then [] :: r
    else
      match r with
      | [] => [[c]]
      | h :: t => (c :: h) :: t

/-- Python `s.split('\n')`. -/
def pyLines (s : String) : List String :=
  (splitOnPredList (· = '\n') s.toList).map String.mk

/-- Python `s.split()` : split on runs of whitespace, dropping empties. -/
def pySplitWs (s : String) : List String :=
  ((splitOnPredList pyIsWs s.toList).filter (fun w => !w.isEmpty)).map String.mk

/-- ASCII lower-casing of one character, as Python `str.lower()` acts on
the ASCII inputs of this code base. -/
def pyToLowerChar (c : Char) : Char :=
  if 'A' ≤ c ∧ c ≤ 'Z' then Char.ofNat (c.toNat + 32) else c

/-- Python `s.lower()` (ASCII). -/
def pyToLower (s : String) : String := String.mk (s.toList.map pyToLowerChar)

/-- Python `s.strip()` on a character list. -/
def pyStripList (cs : List Char) : List Char :=
  ((cs.dropWhile pyIsWs).reverse.dropWhile pyIsWs).reverse

/- ### C1 — Sandbox Synchronizer: `MVPBuilderAgent.update_sandbox_files`

`backend/mvp_builder_agent.py` lines 404-450.  The method loops over the
file map in order and POSTs each file to the provider.  The outcome of each
remote POST is modelled by the oracle `pushOk : String → Bool` (keyed by
file path; `false` also covers a raised network error, which the
surrounding `try` turns into `return False`).  The local
`active_sandboxes` bookkeeping does not affect the return value and is not
modelled.  The embedding returns the boolean result of the call together
with the list of paths whose push was actually attempted. -/

/-- Embedding of `update_sandbox_files`: first component is the returned
boolean, second is the ordered list of paths for which a push request was
issued.  In the source, `if not response.ok: return False` exits the loop
on the first failing push. -/
def updateSandboxFiles (pushOk : String → Bool) :
    List (String × String) → Bool × List String
  | [] => (true, [])
  | (path, _) :: rest =>
    if pushOk path then
      let r := updateSandboxFiles pushOk rest
      (r.1, path :: r.2)
    else
      (false, [path])

/- ### C2 — Patch step file-target scan: `MVPNexoraAgent._apply_fix`

`backend/MVP_Agent.py` lines 984-998:

    lines = error_analysis.split('\n')
    file_to_fix = None
    for line in lines:
        if 'file' in line.lower() or '.js' in line or '.py' in line:
            words = line.split()
            for word in words:
                if '.' in word and '/' in word:
                    file_to_fix = word
                    break

Note the outer loop has no `break`: a later qualifying line overwrites
`file_to_fix`. -/

/-- The line filter of `_apply_fix`: `'file' in line.lower() or '.js' in
line or '.py' in line`. -/
def lineMatchesFilter (line : String) : Bool :=
  strContains (pyToLower line) "file" || strContains line ".js" || strContains line ".py"

/-- A token qualifies when it contains both `'.'` and `'/'`. -/
def wordIsPathToken (w : String) : Bool :=
  w.toList.contains '.' && w.toList.contains '/'

/-- The candidate a single line contributes: the first qualifying
whitespace-separated token of a line passing the filter, else none. -/
def lineCandidate (line : String) : Option String :=
  if lineMatchesFilter line then (pySplitWs line).find? wordIsPathToken
  else none

/-- Embedding of the scan of `_apply_fix`: fold over the lines, a later
candidate overwriting an earlier one (the Python loop never breaks out of
the outer `for`). -/
def fileToFix (analysis : String) : Option String :=
  (pyLines analysis).foldl
    (fun acc line =>
      match lineCandidate line with
      | some w => some w
      | none => acc)
    none

/-- Modelled from the spec's words, for comparison with `fileToFix` only:
"scans the diagnosis text line-by-line for a token containing both a path
separator and a file extension; the first match is the target file". -/
def specFirstFileToken (analysis : String) : Option String :=
  (((pyLines analysis).map pySplitWs).flatten).find? wordIsPathToken

/- ### Theorems for C1 -/

/-- The push oracle of the C1 counterexample: the push of `"a.css"` fails,
every other push succeeds. -/
def pushOkCE : String → Bool := fun p => p ≠ "a.css"

/-- Claim C1 (counterexample): with a two-file map whose first push fails,
`update_sandbox_files` never attempts the second file's push — refuting
"a failure while pushing one file does not abort the pushes of the
remaining files". -/
theorem updateSandboxFiles_aborts_on_failure :
    (updateSandboxFiles pushOkCE [("a.css", "x"), ("b.css", "y")]).2 = ["a.css"]
    ∧ "b.css" ∉ (updateSandboxFiles pushOkCE [("a.css", "x"), ("b.css", "y")]).2
    ∧ (updateSandboxFiles pushOkCE [("a.css", "x"), ("b.css", "y")]).1 = false := by
  decide

/-- Claim C1 (amended): `update_sandbox_files` attempts pushes in order up
to and including the first failing one, aborting the remainder; it returns
true exactly when every file's push succeeds (and false as soon as one
push fails). -/
theorem updateSandboxFiles_stops_at_first_failure (pushOk : String → Bool)
    (files : List (String × String)) :
    ((updateSandboxFiles pushOk files).1 = true ↔ ∀ f ∈ files, pushOk f.1 = true)
    ∧ (updateSandboxFiles pushOk files).2
      = (files.map Prod.fst).takeWhile pushOk
        ++ ((files.map Prod.fst).dropWhile pushOk).take 1 := by
  induction files with
  | nil => simp [updateSandboxFiles]
  | cons f rest ih =>
    obtain ⟨path, content⟩ := f
    by_cases h : pushOk path
    · simpa [updateSandboxFiles, h] using ih
    · simp [updateSandboxFiles, h]

/- ### Theorems for C2 -/

/-- The diagnosis text of the C2 counterexample: two lines, each passing
the line filter and each holding a qualifying token. -/
def analysisCE : String := "file a/b.js\nfile c/d.js"

/-- Claim C2 (counterexample): on a diagnosis whose first qualifying token
in scan order is `a/b.js`, the code selects `c/d.js` — the candidate of
the last matching line, not the first matching token. -/
theorem fileToFix_not_first_token :
    specFirstFileToken analysisCE = some "a/b.js"
    ∧ fileToFix analysisCE = some "c/d.js"
    ∧ fileToFix analysisCE ≠ specFirstFileToken analysisCE := by
  decide

/-- Helper: the last element of a nonempty list exists. -/
theorem cons_getLast?_eq_some (r : String) (rs : List String) :
    ∃ x, (r :: rs).getLast? = some x := by
  induction rs generalizing r with
  | nil => exact ⟨r, rfl⟩
  | cons r' rs ih =>
    obtain ⟨x, hx⟩ := ih r'
    exact ⟨x, by rw [List.getLast?_cons_cons, hx]⟩

/-- Helper: folding "keep the newest `some`" over a list yields the last
hit of `filterMap`, falling back to the accumulator. -/
theorem foldl_overwrite_eq_getLast? (cand : String → Option String) :
    ∀ (ls : List String) (acc : Option String),
      ls.foldl
        (fun a l =>
          match cand l with
          | some w => some w
          | none => a)
        acc
      = match (ls.filterMap cand).getLast? with
        | some x => some x
        | none => acc := by
  intro ls
  induction ls with
  | nil => intro acc; rfl
  | cons l ls ih =>
    intro acc
    cases h : cand l with
    | none => simpa [List.foldl_cons, h, List.filterMap_cons] using ih acc
    | some w =>
      rw [List.foldl_cons, h, ih (some w), List.filterMap_cons, h]
      cases hr : (ls.filterMap cand) with
      | nil => simp
      | cons r rs =>
        rw [List.getLast?_cons_cons]
        obtain ⟨x, hx⟩ := cons_getLast?_eq_some r rs
        rw [hx]

/-- Claim C2 (amended): the scan considers only lines containing `file`
(case-insensitively), `.js`, or `.py`; inside such a line the first
whitespace token containing both `.` and `/` is the line's candidate, and
the selected target is the candidate of the LAST such line of the
diagnosis, not the first. -/
theorem fileToFix_eq_last_candidate (analysis : String) :
    fileToFix analysis
      = ((pyLines analysis).filterMap lineCandidate).getLast? := by
  unfold fileToFix
  rw [foldl_overwrite_eq_getLast? lineCandidate]
  cases h : ((pyLines analysis).filterMap lineCandidate).getLast? <;> rfl

/- ### C3 — Streaming File Extractor: `stream_mvp_generation.generate_stream`

`backend/main.py` lines 716-788.  Per received chunk the code appends to
`content_buffer`, then (when no file is open) searches once for the
pattern `<file path="([^"]+)">`, then (when a file is open) cuts at the
first `</file>`, emits the completed file and truncates the buffer.  The
sandbox push of a completed file is modelled as succeeding: the claim
concerns the extracted records.  At most one file can be opened and at
most one completed per chunk, and nothing drains the buffer after the
last chunk. -/

/-- A completed file emission: path, stripped content, inferred language. -/
structure ExtractedFile where
  path : String
  content : String
  language : String
deriving DecidableEq, Repr

/-- The extension-to-language table of `generate_stream`
(`file_path.split('.')[-1].lower()` then `language_map.get(ext,
'plaintext')`). -/
def languageOf (path : String) : String :=
  let ext := String.mk (((splitOnPredList (· = '.') path.toList).getLastD
    path.toList).map pyToLowerChar)
  if ext = "js" || ext = "jsx" then "javascript"
  else if ext = "ts" || ext = "tsx" then "typescript"
  else if ext = "py" then "python"
  else if ext = "html" then "html"
  else if ext = "css" then "css"
  else if ext = "json" then "json"
  else if ext = "md" then "markdown"
  else "plaintext"

/-- The literal `<file path="` that opens the primary-grammar span. -/
def openLit : List Char := ('<' :: 'f' :: 'i' :: 'l' :: 'e' :: ' ' ::
  'p' :: 'a' :: 't' :: 'h' :: '=' :: '"' :: [])

/-- The literal `</file>` that closes a span. -/
def closeLit : List Char := ('<' :: '/' :: 'f' :: 'i' :: 'l' :: 'e' :: '>' :: [])

/-- Try the full regex `<file path="([^"]+)">` at the head of `cs`:
the literal, then one or more non-quote characters, then `">`.  Returns
the captured path and the length of the whole match. -/
def matchOpenAt (cs : List Char) : Option (String × Nat) :=
  if listHasPre openLit cs then
    let rest := cs.drop openLit.length
    let p := rest.takeWhile (· ≠ '"')
    if p.isEmpty then none
    else
      match rest.drop p.length with
      | '"' :: '>' :: _ => some (String.mk p, openLit.length + p.length + 2)
      | _ => none
  else none

/-- `re.search` for the open pattern: leftmost position where the full
pattern matches; returns the captured path and the absolute index just
past the match (`match.end()`). -/
def findOpenFrom : List Char → Nat → Option (String × Nat)
  | [], _ => none
  | c :: cs, i =>
    match matchOpenAt (c :: cs) with
    | some (path, len) => some (path, i + len)
    | none => findOpenFrom cs (i + 1)

/-- First index of a literal substring (`str.index`). -/
def findSubFrom (pat : List Char) : List Char → Nat → Option Nat
  | [], i => if pat.isEmpty then some i else none
  | c :: cs, i =>
    if listHasPre pat (c :: cs) then some i else findSubFrom pat cs (i + 1)

/-- Python `buf[a:b]` for `0 ≤ a, b` (empty when `a ≥ b`). -/
def sliceList (cs : List Char) (a b : Nat) : List Char := (cs.take b).drop a

/-- The file currently being collected (`current_file`): its path, its
language, and `start_index` — the buffer index just past the open tag. -/
structure StreamFile where
  path : String
  language : String
  startIndex : Nat
deriving DecidableEq, Repr

/-- The loop state of `generate_stream`: the rolling buffer, the open
file if any, and the completed emissions so far. -/
structure StreamState where
  buffer : List Char
  currentFile : Option StreamFile
  completed : List ExtractedFile
deriving DecidableEq, Repr

/-- State before the first chunk. -/
def initStreamState : StreamState := ⟨[], none, []⟩

/-- The open-detection step: runs only while no file is open, and only
when `'<file path="' in content_buffer`; a successful regex search opens
the file and records `start_index = match.end()`. -/
def openStep (st : StreamState) : StreamState :=
  if st.currentFile.isNone && listHasSub openLit st.buffer then
    match findOpenFrom st.buffer 0 with
    | some (path, endIdx) =>
      { st with currentFile := some ⟨path, languageOf path, endIdx⟩ }
    | none => st
  else st

/-- The close-detection step: with a file open and `'</file>' in
content_buffer`, cut at the first `</file>`, emit the stripped slice
`content_buffer[start_index:end_tag_index]`, drop the consumed span
(`end_tag_index + 7`) and reset `current_file`. -/
def closeStep (st : StreamState) : StreamState :=
  match st.currentFile with
  | some f =>
    if listHasSub closeLit st.buffer then
      match findSubFrom closeLit st.buffer 0 with
      | some e =>
        { buffer := st.buffer.drop (e + 7),
          currentFile := none,
          completed := st.completed ++
            [⟨f.path, String.mk (pyStripList (sliceList st.buffer f.startIndex e)),
              f.language⟩] }
      | none => st
    else st
  | none => st

/-- One iteration of `async for chunk in ...`: append the chunk, then the
open check, then the close check. -/
def processChunk (st : StreamState) (chunk : String) : StreamState :=
  closeStep (openStep { st with buffer := st.buffer ++ chunk.toList })

/-- The whole stream run: fold the chunk sequence through the loop and
collect the completed emissions. -/
def runStream (chunks : List String) : List ExtractedFile :=
  (chunks.foldl processChunk initStreamState).completed

/- ### Theorems for C3 -/

/-- The two file spans of the C3 counterexample, and their concatenation:
the same model output split as two chunks or delivered as one. -/
def chunkA : String := "<file path=\"a.js\">x</file>"

/-- Second span of the C3 counterexample. -/
def chunkB : String := "<file path=\"b.js\">y</file>"

/-- Claim C3 (counterexample): the concatenation `chunkA ++ chunkB`
delivered as ONE chunk completes only `a.js`, while the same text split
at the span boundary completes both files — the completed FileRecord set
depends on the chunking, refuting chunk-boundary invariance. -/
theorem runStream_not_chunk_invariant :
    chunkA ++ chunkB = "<file path=\"a.js\">x</file><file path=\"b.js\">y</file>"
    ∧ runStream [chunkA ++ chunkB] = [⟨"a.js", "x", "javascript"⟩]
    ∧ runStream [chunkA, chunkB]
      = [⟨"a.js", "x", "javascript"⟩, ⟨"b.js", "y", "javascript"⟩]
    ∧ (⟨"b.js", "y", "javascript"⟩ : ExtractedFile) ∈ runStream [chunkA, chunkB]
    ∧ (⟨"b.js", "y", "javascript"⟩ : ExtractedFile) ∉ runStream [chunkA ++ chunkB] := by
  decide

/-- The open step never emits a file. -/
theorem openStep_completed (st : StreamState) :
    (openStep st).completed = st.completed := by
  unfold openStep
  split
  · cases h : findOpenFrom st.buffer 0 with
    | none => rfl
    | some v => cases v; rfl
  · rfl

/-- The close step emits at most one file. -/
theorem closeStep_completed_le (st : StreamState) :
    (closeStep st).completed.length ≤ st.completed.length + 1 := by
  obtain ⟨buf, cf, comp⟩ := st
  cases cf with
  | none => simp [closeStep]
  | some f =>
    simp only [closeStep]
    split
    · cases h : findSubFrom closeLit buf 0 with
      | none => simp
      | some e => simp
    · simp

/-- Helper: folding the chunk loop from any state adds at most one
completed file per chunk. -/
theorem foldl_processChunk_le (chunks : List String) :
    ∀ st : StreamState,
      ((chunks.foldl processChunk st).completed).length
        ≤ st.completed.length + chunks.length := by
  induction chunks with
  | nil => intro st; simp
  | cons c cs ih =>
    intro st
    have h1 : (processChunk st c).completed.length ≤ st.completed.length + 1 := by
      unfold processChunk
      calc (closeStep (openStep { st with buffer := st.buffer ++ c.toList })).completed.length
          ≤ (openStep { st with buffer := st.buffer ++ c.toList }).completed.length + 1 :=
            closeStep_completed_le _
        _ = st.completed.length + 1 := by rw [openStep_completed]
    calc ((cs.foldl processChunk (processChunk st c)).completed).length
        ≤ (processChunk st c).completed.length + cs.length := ih _
      _ ≤ st.completed.length + 1 + cs.length := by omega
      _ = st.completed.length + (c :: cs).length := by simp; omega

/-- Claim C3 (amended): the extractor completes at most one FileRecord
per delivered chunk (the loop processes one open and one close per chunk
and performs no end-of-stream drain), so the completed set depends on the
chunk boundaries; in particular a single-chunk delivery completes at most
one file. -/
theorem runStream_length_le_chunks (chunks : List String) :
    (runStream chunks).length ≤ chunks.length := by
  have := foldl_processChunk_le chunks initStreamState
  simpa [runStream, initStreamState] using this

/- ### C5/C6 — Package Dependency Detector: `extract_packages_from_files`

`backend/file_parser.py` lines 238-281.  The code collects every regex
capture of

    import_regex  = import\s+(?:(?:\{[^}]*\}|\*\s+as\s+\w+|\w+)\s*,?\s*)*(?:from\s+)?['"]([^'"]+)['"]
    require_regex = require\s*\(['"]([^'"]+)['"]\)

over the `.js/.jsx/.ts/.tsx` files into a Python SET, then iterates that
set, filtering relative targets and a built-in allow-list, collapsing
names and de-duplicating into the result list.  CPython's set-iteration
order is not determined by the source text (string hashing is randomized
per process), so the embedding takes the enumeration order of the set as
an explicit parameter `enum`, constrained by `admissibleEnum` to list
exactly the collected targets, each once. -/

/-- Python `\w` on the ASCII inputs of this code base. -/
def isWordCh (c : Char) : Bool := c.isAlphanum || c = '_'

/-- Greedy `\s*,?\s*` — the separator inside the import-clause star.  The
characters it can consume (whitespace and one comma) are disjoint from
everything that may follow, so the greedy parse agrees with the regex
engine's backtracking parse. -/
def eatItemSep (cs : List Char) : List Char :=
  let cs1 := cs.dropWhile pyIsWs
  match cs1 with
  | ',' :: rest => rest.dropWhile pyIsWs
  | _ => cs1

/-- One iteration of the import-clause alternation
`\{[^}]*\}|\*\s+as\s+\w+|\w+`.  The three branches start with distinct
character classes, so the alternation is deterministic. -/
def clauseItem (cs : List Char) : Option (List Char) :=
  match cs with
  | [] => none
  | '\x7b' :: rest =>
    let body := rest.dropWhile (· ≠ '\x7d')
    (match body with
     | '\x7d' :: r => some r
     | _ => none)
  | '*' :: rest =>
    let w1 := rest.takeWhile pyIsWs
    if w1.isEmpty then none
    else
      match rest.drop w1.length with
      | 'a' :: 's' :: r2 =>
        let w2 := r2.takeWhile pyIsWs
        if w2.isEmpty then none
        else
          let r3 := r2.drop w2.length
          let w := r3.takeWhile isWordCh
          if w.isEmpty then none else some (r3.drop w.length)
      | _ => none
  | c :: _ =>
    if isWordCh c then some (cs.dropWhile isWordCh) else none

/-- All rests reachable by the clause star
`(?:(?:\{[^}]*\}|\*\s+as\s+\w+|\w+)\s*,?\s*)*`, listed in the regex
engine's greedy order: most iterations first, the zero-iteration rest
last.  Every iteration consumes at least one character, so fuel equal to
the input length suffices. -/
def starRests : Nat → List Char → List (List Char)
  | 0, cs => [cs]
  | fuel + 1, cs =>
    match clauseItem cs with
    | none => [cs]
    | some r => starRests fuel (eatItemSep r) ++ [cs]

/-- The quoted capture `['"]([^'"]+)['"]` : an opening quote of either
kind, one or more characters that are neither quote, and a closing quote
of either kind.  Returns the capture and the rest. -/
def matchQuoted (cs : List Char) : Option (String × List Char) :=
  match cs with
  | [] => none
  | q :: rest =>
    if q = '\x27' || q = '"' then
      let body := rest.takeWhile (fun c => c ≠ '\x27' && c ≠ '"')
      if body.isEmpty then none
      else
        match rest.drop body.length with
        | q2 :: r2 =>
          if q2 = '\x27' || q2 = '"' then some (String.mk body, r2) else none
        | [] => none
    else none

/-- The tail `(?:from\s+)?['"]([^'"]+)['"]` of the import pattern,
trying the `from` branch first as the regex engine does. -/
def finishImport (cs : List Char) : Option (String × List Char) :=
  let fromBranch :=
    match cs with
    | 'f' :: 'r' :: 'o' :: 'm' :: r =>
      let w := r.takeWhile pyIsWs
      if w.isEmpty then none else matchQuoted (r.drop w.length)
    | _ => none
  match fromBranch with
  | some res => some res
  | none => matchQuoted cs

/-- First success of `f` over a list of candidates. -/
def firstSome {α β : Type} : List α → (α → Option β) → Option β
  | [], _ => none
  | a :: rest, f =>
    match f a with
    | some b => some b
    | none => firstSome rest f

/-- Try the full import pattern at the head of `cs`: the literal
`import`, mandatory whitespace, the clause star (backtracking over its
greedy rests), then `finishImport`. -/
def matchImportAt (cs : List Char) : Option (String × List Char) :=
  match cs with
  | 'i' :: 'm' :: 'p' :: 'o' :: 'r' :: 't' :: r =>
    let w := r.takeWhile pyIsWs
    if w.isEmpty then none
    else
      let r1 := r.drop w.length
      firstSome (starRests r1.length r1) finishImport
  | _ => none

/-- Try the require pattern `require\s*\(['"]([^'"]+)['"]\)` at the head
of `cs`. -/
def matchRequireAt (cs : List Char) : Option (String × List Char) :=
  match cs with
  | 'r' :: 'e' :: 'q' :: 'u' :: 'i' :: 'r' :: 'e' :: r =>
    let r1 := r.dropWhile pyIsWs
    match r1 with
    | '(' :: r2 =>
      (match matchQuoted r2 with
       | some (cap, r3) =>
         (match r3 with
          | ')' :: r4 => some (cap, r4)
          | _ => none)
       | none => none)
    | _ => none
  | _ => none

/-- `re.finditer`: scan left to right, at each position try the full
pattern; after a match resume at the match end.  Fuel bounds the scan. -/
def finditerCaps (tryAt : List Char → Option (String × List Char)) :
    Nat → List Char → List String
  | 0, _ => []
  | _, [] => []
  | fuel + 1, c :: cs =>
    match tryAt (c :: cs) with
    | some (cap, rest) => cap :: finditerCaps tryAt fuel rest
    | none => finditerCaps tryAt fuel cs

/-- All captures of the import pattern in a file body. -/
def importTargets (content : String) : List String :=
  finditerCaps matchImportAt content.toList.length content.toList

/-- All captures of the require pattern in a file body. -/
def requireTargets (content : String) : List String :=
  finditerCaps matchRequireAt content.toList.length content.toList

/-- Reversal helper for suffix tests. -/
def closeExt (s : String) : List Char := s.toList.reverse

/-- The file filter `re.match(r'.*\.(jsx?|tsx?)$', file_path)` : the path
(up to one trailing newline matched by `$`) ends in `.js/.jsx/.ts/.tsx`
and `.*` cannot cross a newline. -/
def jsFileFilter (path : String) : Bool :=
  let cs := path.toList
  let q := if cs.getLast? = some '\n' then cs.dropLast else cs
  (listHasPre (closeExt ".js") q.reverse || listHasPre (closeExt ".jsx") q.reverse
    || listHasPre (closeExt ".ts") q.reverse || listHasPre (closeExt ".tsx") q.reverse)
    && !q.contains '\n'

/-- The multiset of raw regex targets collected into the Python set
`packages`, files in map order, import captures before require captures
per file.  Only membership matters downstream. -/
def rawTargets (files : List (String × String)) : List String :=
  files.foldr
    (fun f acc =>
      if jsFileFilter f.1 then importTargets f.2 ++ requireTargets f.2 ++ acc
      else acc)
    []

/-- The built-in/runtime allow-list of `extract_packages_from_files`
(note that it contains `react` and `react-dom`). -/
def builtinsList : List String :=
  ["fs", "path", "http", "https", "crypto", "stream", "util", "os", "url",
   "querystring", "child_process", "react", "react-dom"]

/-- Python `pkg.startswith('.') or pkg.startswith('/') or
pkg.startswith('@/')`. -/
def isRelativeTarget (pkg : String) : Bool :=
  listHasPre ['.'] pkg.toList || listHasPre ['/'] pkg.toList
    || listHasPre ['@', '/'] pkg.toList

/-- Scoped-name collapsing: `'/'.join(pkg.split('/')[:2])` when the
target starts with `@`, else `pkg.split('/')[0]`. -/
def collapseName (pkg : String) : String :=
  let parts := (splitOnPredList (· = '/') pkg.toList).map String.mk
  if listHasPre ['@'] pkg.toList then
    String.intercalate "/" (parts.take 2)
  else
    parts.headD pkg

/-- One pass of the filter loop body over the accumulator
`filtered_packages`. -/
def filterStep (acc : List String) (pkg : String) : List String :=
  if isRelativeTarget pkg then acc
  else if builtinsList.contains pkg then acc
  else
    let pname := collapseName pkg
    if acc.contains pname then acc else acc ++ [pname]

/-- Embedding of `extract_packages_from_files`, parameterized by the
set-enumeration order `enum` of the collected target set. -/
def extractPackagesWithOrder (enum : List String) : List String :=
  enum.foldl filterStep []

/-- `enum` is a possible iteration order of the Python set built from
`files`: it lists each collected target exactly once. -/
def admissibleEnum (files : List (String × String)) (enum : List String) : Prop :=
  enum.Nodup ∧ (∀ s ∈ enum, s ∈ rawTargets files)
    ∧ (∀ s ∈ rawTargets files, s ∈ enum)

/-- A target survives the filter loop when it is neither relative nor on
the allow-list. -/
def keepTarget (pkg : String) : Bool :=
  !isRelativeTarget pkg && !builtinsList.contains pkg

/-- Lexicographic comparison of paths, for the spec's "path-sorted order". -/
def charListLe : List Char → List Char → Bool
  | [], _ => true
  | _ :: _, [] => false
  | a :: r1, b :: r2 =>
    if a < b then true else if b < a then false else charListLe r1 r2

/-- Insert into a path-sorted file list. -/
def insertByPath (f : String × String) :
    List (String × String) → List (String × String)
  | [] => [f]
  | g :: gs =>
    if charListLe f.1.toList g.1.toList then f :: g :: gs
    else g :: insertByPath f gs

/-- Sort a file list by path. -/
def sortByPath (files : List (String × String)) : List (String × String) :=
  files.foldr insertByPath []

/-- Modelled from the spec's words, for comparison with
`extractPackagesWithOrder` only: "a de-duplicated list ordered by first
appearance across files processed in path-sorted order". -/
def specDetectorOrder (files : List (String × String)) : List String :=
  (List.flatten ((sortByPath files).map
      (fun (f : String × String) =>
        if jsFileFilter f.1 then importTargets f.2 ++ requireTargets f.2 else []))).foldl
    filterStep []

/- ### Theorems for C5 -/

/-- The Scenario B file set: one file importing `react`, one importing
the relative `./local`. -/
def filesScenarioB : List (String × String) :=
  [("a.js", "import React from \x27react\x27"),
   ("b.js", "import \x7bx\x7d from \x27./local\x27")]

/-- Claim C5 (counterexample): on the Scenario B file set the detector
returns the empty list — `react` sits on the built-in allow-list of
`extract_packages_from_files` and is excluded, so the claimed output
`["react"]` is wrong (shown here under an explicitly admissible
set-enumeration order; the result below holds for every admissible
order). -/
theorem scenarioB_detects_empty :
    admissibleEnum filesScenarioB ["react", "./local"]
    ∧ extractPackagesWithOrder ["react", "./local"] = []
    ∧ ([] : List String) ≠ ["react"] := by
  refine ⟨⟨by decide, by decide, by decide⟩, by decide, by decide⟩

/-- Helper: when every enumerated target is relative or on the
allow-list, the filter loop returns the accumulator unchanged. -/
theorem foldl_filterStep_all_skipped :
    ∀ (enum : List String) (acc : List String),
      (∀ p ∈ enum, isRelativeTarget p = true ∨ builtinsList.contains p = true) →
      enum.foldl filterStep acc = acc := by
  intro enum
  induction enum with
  | nil => intro acc _; rfl
  | cons p rest ih =>
    intro acc h
    have hp := h p (by simp)
    have hstep : filterStep acc p = acc := by
      unfold filterStep
      rcases hp with h1 | h1
      · simp [h1]
      · simp [h1]
        intro _ hn
        exact absurd (by simpa using h1) hn
    rw [List.foldl_cons, hstep]
    exact ih acc (fun q hq => h q (by simp [hq]))

/-- Claim C5 (amended): on the Scenario B file set the detector returns
`[]` for every admissible enumeration of the collected target set: the
relative import `./local` is excluded as claimed, but `react` is also
excluded, by the built-in/runtime allow-list. -/
theorem scenarioB_detector_output (enum : List String)
    (h : admissibleEnum filesScenarioB enum) :
    extractPackagesWithOrder enum = [] := by
  obtain ⟨-, hsub, -⟩ := h
  have hraw : rawTargets filesScenarioB = ["react", "./local"] := by decide
  apply foldl_filterStep_all_skipped
  intro p hp
  have hmem := hsub p hp
  rw [hraw] at hmem
  simp only [List.mem_cons, List.mem_singleton, List.not_mem_nil, or_false] at hmem
  rcases hmem with h1 | h1
  · right; rw [h1]; decide
  · left; rw [h1]; decide

/-- Witness for `scenarioB_detector_output` at the concrete enumeration
`["react", "./local"]`. -/
theorem scenarioB_detector_output_witness :
    extractPackagesWithOrder ["react", "./local"] = [] :=
  scenarioB_detector_output ["react", "./local"] ⟨by decide, by decide, by decide⟩

/- ### Theorems for C6 -/

/-- The C6 counterexample file set: one file whose imports appear in the
order `zzz` then `aaa`. -/
def filesOrderCE : List (String × String) :=
  [("a.js", "import z from \x27zzz\x27\nimport y from \x27aaa\x27")]

/-- Claim C6 (counterexample): the collected target set of `filesOrderCE`
admits the enumeration orders `["aaa", "zzz"]` and `["zzz", "aaa"]`
(CPython enumerates the set `packages` in an order the source text does
not determine — string hashing is randomized per process), and the two
orders produce different output lists; the first also differs from the
spec's first-appearance/path-sorted order.  This refutes both the claimed
output order and cross-run determinism. -/
theorem detector_order_not_first_appearance :
    admissibleEnum filesOrderCE ["aaa", "zzz"]
    ∧ admissibleEnum filesOrderCE ["zzz", "aaa"]
    ∧ extractPackagesWithOrder ["aaa", "zzz"] = ["aaa", "zzz"]
    ∧ extractPackagesWithOrder ["zzz", "aaa"] = ["zzz", "aaa"]
    ∧ specDetectorOrder filesOrderCE = ["zzz", "aaa"]
    ∧ (["aaa", "zzz"] : List String) ≠ ["zzz", "aaa"] := by
  exact ⟨⟨by decide, by decide, by decide⟩, ⟨by decide, by decide, by decide⟩,
    by decide, by decide, by decide, by decide⟩

/-- Helper: the filter loop preserves freedom from duplicates. -/
theorem foldl_filterStep_nodup :
    ∀ (enum acc : List String), acc.Nodup → (enum.foldl filterStep acc).Nodup := by
  intro enum
  induction enum with
  | nil => intro acc h; exact h
  | cons p rest ih =>
    intro acc h
    rw [List.foldl_cons]
    apply ih
    unfold filterStep
    split
    · exact h
    · split
      · exact h
      · by_cases hc : acc.contains (collapseName p) = true
        · rw [if_pos hc]
          exact h
        · rw [if_neg hc]
          have hnotmem : collapseName p ∉ acc := by simpa using hc
          simp [List.nodup_append, h, hnotmem]

/-- Helper: membership in the filter loop's output — an element is either
already in the accumulator or the collapsed name of a kept enumerated
target. -/
theorem foldl_filterStep_mem :
    ∀ (enum acc : List String) (x : String),
      x ∈ enum.foldl filterStep acc
        ↔ x ∈ acc ∨ ∃ p ∈ enum, keepTarget p = true ∧ collapseName p = x := by
  intro enum
  induction enum with
  | nil => intro acc x; simp
  | cons p rest ih =>
    intro acc x
    rw [List.foldl_cons, ih]
    have hstep : x ∈ filterStep acc p
        ↔ x ∈ acc ∨ (keepTarget p = true ∧ collapseName p = x) := by
      unfold filterStep keepTarget
      by_cases hr : isRelativeTarget p = true
      · rw [if_pos hr, hr]
        simp
      · have hr' : isRelativeTarget p = false := by simpa using hr
        rw [if_neg hr, hr']
        by_cases hb : builtinsList.contains p = true
        · rw [if_pos hb, hb]
          simp
        · have hb' : builtinsList.contains p = false := by simpa using hb
          rw [if_neg hb, hb']
          by_cases hc : acc.contains (collapseName p) = true
          · have hcm : collapseName p ∈ acc := by simpa using hc
            rw [if_pos hc]
            simp only [Bool.not_false, Bool.and_self, true_and]
            constructor
            · exact fun hx => Or.inl hx
            · rintro (hx | hx)
              · exact hx
              · rw [← hx]; exact hcm
          · rw [if_neg hc]
            simp only [Bool.not_false, Bool.and_self, true_and]
            simp [eq_comm]
    rw [hstep]
    constructor
    · rintro (⟨hx | ⟨hk, hc⟩⟩ | ⟨q, hq, hk, hc⟩)
      · exact Or.inl hx
      · exact Or.inr ⟨p, by simp, hk, hc⟩
      · exact Or.inr ⟨q, by simp [hq], hk, hc⟩
    · rintro (hx | ⟨q, hq, hk, hc⟩)
      · exact Or.inl (Or.inl hx)
      · rcases List.mem_cons.mp hq with hq' | hq'
        · subst hq'
          exact Or.inl (Or.inr ⟨hk, hc⟩)
        · exact Or.inr ⟨q, hq', hk, hc⟩

/-- Claim C6 (amended): the detector's output is de-duplicated and its
MEMBERSHIP is a function of the file set alone — any two admissible
set-enumeration orders yield outputs equal as sets — but the output ORDER
is the set-enumeration order, which is neither the first-appearance order
over path-sorted files nor stable across interpreter runs. -/
theorem detector_output_set_deterministic (files : List (String × String))
    (e1 e2 : List String)
    (h1 : admissibleEnum files e1) (h2 : admissibleEnum files e2) :
    (extractPackagesWithOrder e1).Nodup
    ∧ ∀ x, x ∈ extractPackagesWithOrder e1 ↔ x ∈ extractPackagesWithOrder e2 := by
  constructor
  · exact foldl_filterStep_nodup e1 [] List.nodup_nil
  · intro x
    unfold extractPackagesWithOrder
    rw [foldl_filterStep_mem, foldl_filterStep_mem]
    simp only [List.not_mem_nil, false_or]
    constructor
    · rintro ⟨p, hp, hk, hc⟩
      exact ⟨p, h2.2.2 p (h1.2.1 p hp), hk, hc⟩
    · rintro ⟨p, hp, hk, hc⟩
      exact ⟨p, h1.2.2 p (h2.2.1 p hp), hk, hc⟩

/-- Witness for `detector_output_set_deterministic` at the two concrete
admissible enumerations of the C6 counterexample file set. -/
theorem detector_output_set_deterministic_witness :
    (extractPackagesWithOrder ["aaa", "zzz"]).Nodup
    ∧ ∀ x, x ∈ extractPackagesWithOrder ["aaa", "zzz"]
        ↔ x ∈ extractPackagesWithOrder ["zzz", "aaa"] :=
  detector_output_set_deterministic filesOrderCE ["aaa", "zzz"] ["zzz", "aaa"]
    ⟨by decide, by decide, by decide⟩ ⟨by decide, by decide, by decide⟩

/- ### C4/C7/C8/C9/C10 — Build-Test-Fix Controller

`backend/MVP_Agent.py`: `BuildTestManager.install_dependencies` (586-633),
`build_project` (635-663), `run_tests` (665-700), and
`MVPNexoraAgent._auto_fix_loop` (851-931) / `build_mvp` (1144-1156).

The workspace manifest files are modelled by `FS` (their existence is not
changed by patches, which only overwrite existing files), shell command
outcomes by the oracle `run : Nat → Cmd → CmdResult` (indexed by the loop
iteration, since patches change what a command does next time), and the
outcome of `_apply_fix` — at most one call per iteration — by the oracle
`patchAt : Nat → Option PatchStub`.  Wall-clock fields of `BuildInfo`
(duration, timestamp) are omitted. -/

/-- The `BuildStatus` enumeration of the source. -/
inductive BuildStatusE
  | success
  | failed
  | pending
  | skipped
deriving DecidableEq, Repr

/-- The `TestStatus` enumeration of the source. -/
inductive TestStatusE
  | success
  | failed
  | pending
  | skipped
deriving DecidableEq, Repr

/-- Exit code and captured output of one shell command
(`run_command` returns `(returncode, stdout, stderr)`). -/
structure CmdResult where
  exitCode : Int
  stdout : String
  stderr : String
deriving DecidableEq, Repr

/-- The shell commands the build-test manager issues. -/
inductive Cmd
  | npmCi
  | pipInstall
  | npmBuild
  | npmTest
deriving DecidableEq, Repr

/-- Which manifest files exist in the project directory. -/
structure FS where
  hasPackageJson : Bool
  hasRequirements : Bool
deriving DecidableEq, Repr

/-- `BuildInfo` without its wall-clock fields. -/
structure BuildInfoE where
  status : BuildStatusE
  logs : String
deriving DecidableEq, Repr

/-- One log block `f"{banner}:\n{stdout}\n{stderr}"`. -/
def cmdLog (banner : String) (r : CmdResult) : String :=
  banner ++ ":\n" ++ r.stdout ++ "\n" ++ r.stderr

/-- `"\n".join(logs)`. -/
def joinLogs : List String → String
  | [] => ""
  | [l] => l
  | l :: l2 :: rest => l ++ "\n" ++ joinLogs (l2 :: rest)

/-- Embedding of `BuildTestManager.install_dependencies`: `npm ci` when
`package.json` exists (nonzero exit returns FAILED early), then
`pip install -r requirements.txt` when `requirements.txt` exists, else
SUCCESS. -/
def installDependencies (fs : FS) (run : Cmd → CmdResult) : BuildInfoE :=
  let step1 : List String × Option BuildInfoE :=
    if fs.hasPackageJson then
      let r := run Cmd.npmCi
      let logs := [cmdLog "npm ci" r]
      if r.exitCode ≠ 0 then (logs, some ⟨BuildStatusE.failed, joinLogs logs⟩)
      else (logs, none)
    else ([], none)
  match step1 with
  | (_, some bi) => bi
  | (logs, none) =>
    if fs.hasRequirements then
      let r := run Cmd.pipInstall
      let logs2 := logs ++ [cmdLog "pip install" r]
      if r.exitCode ≠ 0 then ⟨BuildStatusE.failed, joinLogs logs2⟩
      else ⟨BuildStatusE.success, joinLogs logs2⟩
    else ⟨BuildStatusE.success, joinLogs logs⟩

/-- Embedding of `BuildTestManager.build_project`: `npm run build` only
when `package.json` exists. -/
def buildProject (fs : FS) (run : Cmd → CmdResult) : BuildInfoE :=
  if fs.hasPackageJson then
    let r := run Cmd.npmBuild
    let logs := [cmdLog "npm run build" r]
    if r.exitCode ≠ 0 then ⟨BuildStatusE.failed, joinLogs logs⟩
    else ⟨BuildStatusE.success, joinLogs logs⟩
  else ⟨BuildStatusE.success, joinLogs []⟩

/-- One entry of `TestInfo.details`: either the `npm test` suite record or
the synthesized `{"error": ...}` note. -/
inductive TestDetail
  | suite (output errors : String) (passed : Bool)
  | note (error : String)
deriving DecidableEq, Repr

/-- `TestInfo` of the source. -/
structure TestInfoE where
  status : TestStatusE
  details : List TestDetail
  passed : Nat
  failed : Nat
  total : Nat
deriving DecidableEq, Repr

/-- Embedding of `BuildTestManager.run_tests`: one `npm run test` suite
when `package.json` exists, else zero suites; status is SUCCESS iff the
failed count is zero. -/
def runTests (fs : FS) (run : Cmd → CmdResult) : TestInfoE :=
  if fs.hasPackageJson then
    let r := run Cmd.npmTest
    let ok := r.exitCode = 0
    let passedN : Nat := if ok then 1 else 0
    let failedN : Nat := if ok then 0 else 1
    { status := if failedN = 0 then TestStatusE.success else TestStatusE.failed,
      details := [TestDetail.suite r.stdout r.stderr ok],
      passed := passedN,
      failed := failedN,
      total := passedN + failedN }
  else
    { status := TestStatusE.success, details := [], passed := 0, failed := 0,
      total := 0 }

/-- The data `_apply_fix` derives from one diagnosis when it finds and
rewrites a target: the target file and the analysis text. -/
structure PatchStub where
  file : String
  analysis : String
deriving DecidableEq, Repr

/-- `PatchInfo` of the source, timestamp omitted. -/
structure PatchInfoE where
  iteration : Nat
  file : String
  diff : String
  reason : String
deriving DecidableEq, Repr

/-- The `PatchInfo` record `_apply_fix` constructs:
`diff = f"Fixed based on: {error_analysis[:200]}"`, `reason` the full
analysis, `iteration` the loop counter. -/
def mkPatch (i : Nat) (s : PatchStub) : PatchInfoE :=
  ⟨i, s.file, "Fixed based on: " ++ String.mk (s.analysis.toList.take 200),
    s.analysis⟩

/-- `patches.append(patch)` happens only when `_apply_fix` returned a
patch. -/
def patchList (patchAt : Nat → Option PatchStub) (i : Nat) : List PatchInfoE :=
  match patchAt i with
  | some s => [mkPatch i s]
  | none => []

/-- The `TestInfo` synthesized when the loop exhausts without ever
running tests. -/
def synthesizedTestInfo : TestInfoE :=
  ⟨TestStatusE.failed, [TestDetail.note "Build failed before tests could run"],
    0, 0, 0⟩

/-- The value `_auto_fix_loop` returns, instrumented with the exit kind
(`success` = the in-loop return) and the number of loop iterations that
actually executed. -/
structure FixLoopResult where
  build : Option BuildInfoE
  tests : TestInfoE
  patches : List PatchInfoE
  success : Bool
  iterationsRun : Nat
deriving DecidableEq, Repr

/-- The body of `_auto_fix_loop` over the remaining iteration indices:
install, else build, else test; any failure runs Diagnose+Patch and
continues; success returns immediately. -/
def autoFixAux (fs : FS) (run : Nat → Cmd → CmdResult)
    (patchAt : Nat → Option PatchStub) :
    List Nat → Option BuildInfoE → Option TestInfoE → List PatchInfoE → Nat →
    FixLoopResult
  | [], b, t, acc, k => ⟨b, t.getD synthesizedTestInfo, acc, false, k⟩
  | i :: rest, _, t, acc, k =>
    let bi := installDependencies fs (run i)
    if bi.status = BuildStatusE.failed then
      autoFixAux fs run patchAt rest (some bi) t (acc ++ patchList patchAt i) (k + 1)
    else
      let bi2 := buildProject fs (run i)
      if bi2.status = BuildStatusE.failed then
        autoFixAux fs run patchAt rest (some bi2) t (acc ++ patchList patchAt i) (k + 1)
      else
        let ti := runTests fs (run i)
        if ti.status = TestStatusE.failed then
          autoFixAux fs run patchAt rest (some bi2) (some ti)
            (acc ++ patchList patchAt i) (k + 1)
        else
          ⟨some bi2, ti, acc, true, k + 1⟩

/-- Embedding of `_auto_fix_loop`: iterate `for iteration in
range(1, max_iterations + 1)`. -/
def autoFixLoop (fs : FS) (run : Nat → Cmd → CmdResult)
    (patchAt : Nat → Option PatchStub) (maxIterations : Nat) : FixLoopResult :=
  autoFixAux fs run patchAt (List.range' 1 maxIterations) none none [] 0

/-- `self.max_fix_iterations_free = 3`. -/
def maxFixIterationsFree : Nat := 3

/-- `self.max_fix_iterations_pro = 15`. -/
def maxFixIterationsPro : Nat := 15

/-- The tier selection of `build_mvp`:
`max_iterations = pro if user_subscription == "pro" else free`. -/
def maxIterationsFor (userSubscription : String) : Nat :=
  if userSubscription = "pro" then maxFixIterationsPro else maxFixIterationsFree

/-- Iteration `i` fails (the loop does not exit successfully there): some
stage of install → build → test reports failure. -/
def iterFails (fs : FS) (r : Cmd → CmdResult) : Prop :=
  (installDependencies fs r).status = BuildStatusE.failed
  ∨ (buildProject fs r).status = BuildStatusE.failed
  ∨ (runTests fs r).status = TestStatusE.failed

/-- Iteration `i` fails before the test stage: install or build reports
failure, so `run_tests` is never called there. -/
def preTestFails (fs : FS) (r : Cmd → CmdResult) : Prop :=
  (installDependencies fs r).status = BuildStatusE.failed
  ∨ (buildProject fs r).status = BuildStatusE.failed

/-- The `build_info` value left by a failing iteration: the failing
install record, else the build record (successful when only the tests
failed). -/
def lastBuildOutcome (fs : FS) (r : Cmd → CmdResult) : BuildInfoE :=
  if (installDependencies fs r).status = BuildStatusE.failed then
    installDependencies fs r
  else buildProject fs r

/- #### Unfolding lemmas for the loop -/

/-- Exhausted loop: no iterations left. -/
theorem autoFixAux_nil (fs : FS) (run : Nat → Cmd → CmdResult)
    (patchAt : Nat → Option PatchStub) (b : Option BuildInfoE)
    (t : Option TestInfoE) (acc : List PatchInfoE) (k : Nat) :
    autoFixAux fs run patchAt [] b t acc k
      = ⟨b, t.getD synthesizedTestInfo, acc, false, k⟩ := rfl

/-- Install fails: patch and continue. -/
theorem autoFixAux_cons_install_failed (fs : FS) (run : Nat → Cmd → CmdResult)
    (patchAt : Nat → Option PatchStub) (i : Nat) (rest : List Nat)
    (b : Option BuildInfoE) (t : Option TestInfoE) (acc : List PatchInfoE)
    (k : Nat) (h1 : (installDependencies fs (run i)).status = BuildStatusE.failed) :
    autoFixAux fs run patchAt (i :: rest) b t acc k
      = autoFixAux fs run patchAt rest (some (installDependencies fs (run i))) t
          (acc ++ patchList patchAt i) (k + 1) := by
  simp [autoFixAux, h1]

/-- Install succeeds but build fails: patch and continue. -/
theorem autoFixAux_cons_build_failed (fs : FS) (run : Nat → Cmd → CmdResult)
    (patchAt : Nat → Option PatchStub) (i : Nat) (rest : List Nat)
    (b : Option BuildInfoE) (t : Option TestInfoE) (acc : List PatchInfoE)
    (k : Nat) (h1 : ¬(installDependencies fs (run i)).status = BuildStatusE.failed)
    (h2 : (buildProject fs (run i)).status = BuildStatusE.failed) :
    autoFixAux fs run patchAt (i :: rest) b t acc k
      = autoFixAux fs run patchAt rest (some (buildProject fs (run i))) t
          (acc ++ patchList patchAt i) (k + 1) := by
  simp [autoFixAux, h1, h2]

/-- Install and build succeed but tests fail: patch and continue. -/
theorem autoFixAux_cons_test_failed (fs : FS) (run : Nat → Cmd → CmdResult)
    (patchAt : Nat → Option PatchStub) (i : Nat) (rest : List Nat)
    (b : Option BuildInfoE) (t : Option TestInfoE) (acc : List PatchInfoE)
    (k : Nat) (h1 : ¬(installDependencies fs (run i)).status = BuildStatusE.failed)
    (h2 : ¬(buildProject fs (run i)).status = BuildStatusE.failed)
    (h3 : (runTests fs (run i)).status = TestStatusE.failed) :
    autoFixAux fs run patchAt (i :: rest) b t acc k
      = autoFixAux fs run patchAt rest (some (buildProject fs (run i)))
          (some (runTests fs (run i))) (acc ++ patchList patchAt i) (k + 1) := by
  simp [autoFixAux, h1, h2, h3]

/-- All three stages pass: immediate success return. -/
theorem autoFixAux_cons_success (fs : FS) (run : Nat → Cmd → CmdResult)
    (patchAt : Nat → Option PatchStub) (i : Nat) (rest : List Nat)
    (b : Option BuildInfoE) (t : Option TestInfoE) (acc : List PatchInfoE)
    (k : Nat) (h1 : ¬(installDependencies fs (run i)).status = BuildStatusE.failed)
    (h2 : ¬(buildProject fs (run i)).status = BuildStatusE.failed)
    (h3 : ¬(runTests fs (run i)).status = TestStatusE.failed) :
    autoFixAux fs run patchAt (i :: rest) b t acc k
      = ⟨some (buildProject fs (run i)), runTests fs (run i), acc, true, k + 1⟩ := by
  simp [autoFixAux, h1, h2, h3]

/-- Helper: a run over `m + 1` all-failing iterations starting at index
`j` exhausts the budget, reports the last iteration's failing stage as
its build record, and — when tests were never reached and none were
inherited — synthesizes the all-zero failed test record. -/
theorem autoFixAux_exhaust (fs : FS) (run : Nat → Cmd → CmdResult)
    (patchAt : Nat → Option PatchStub) :
    ∀ (m j : Nat) (b : Option BuildInfoE) (t : Option TestInfoE)
      (acc : List PatchInfoE) (k : Nat),
      (∀ i, j ≤ i → i < j + (m + 1) → iterFails fs (run i)) →
      (autoFixAux fs run patchAt (List.range' j (m + 1)) b t acc k).success = false
      ∧ (autoFixAux fs run patchAt (List.range' j (m + 1)) b t acc k).iterationsRun
          = k + (m + 1)
      ∧ (autoFixAux fs run patchAt (List.range' j (m + 1)) b t acc k).build
          = some (lastBuildOutcome fs (run (j + m)))
      ∧ (t = none →
          (∀ i, j ≤ i → i < j + (m + 1) → preTestFails fs (run i)) →
          (autoFixAux fs run patchAt (List.range' j (m + 1)) b t acc k).tests
            = synthesizedTestInfo) := by
  intro m
  induction m with
  | zero =>
    intro j b t acc k h
    have hj := h j (Nat.le_refl j) (by omega)
    rw [List.range'_one]
    by_cases h1 : (installDependencies fs (run j)).status = BuildStatusE.failed
    · rw [autoFixAux_cons_install_failed fs run patchAt j [] b t acc k h1,
        autoFixAux_nil]
      refine ⟨rfl, rfl, ?_, ?_⟩
      · simp [lastBuildOutcome, h1]
      · intro ht _
        subst ht
        rfl
    · by_cases h2 : (buildProject fs (run j)).status = BuildStatusE.failed
      · rw [autoFixAux_cons_build_failed fs run patchAt j [] b t acc k h1 h2,
          autoFixAux_nil]
        refine ⟨rfl, rfl, ?_, ?_⟩
        · simp [lastBuildOutcome, h1]
        · intro ht _
          subst ht
          rfl
      · have h3 : (runTests fs (run j)).status = TestStatusE.failed := by
          rcases hj with h' | h' | h'
          · exact absurd h' h1
          · exact absurd h' h2
          · exact h'
        rw [autoFixAux_cons_test_failed fs run patchAt j [] b t acc k h1 h2 h3,
          autoFixAux_nil]
        refine ⟨rfl, rfl, ?_, ?_⟩
        · simp [lastBuildOutcome, h1]
        · intro _ hpre
          exact absurd (hpre j (Nat.le_refl j) (by omega))
            (fun hp => hp.elim (fun a => h1 a) (fun c => h2 c))
  | succ m ih =>
    intro j b t acc k h
    have hrange : List.range' j (m + 1 + 1) = j :: List.range' (j + 1) (m + 1) :=
      List.range'_succ j (m + 1) 1
    have hidx : j + 1 + m = j + (m + 1) := by omega
    rw [hrange]
    by_cases h1 : (installDependencies fs (run j)).status = BuildStatusE.failed
    · rw [autoFixAux_cons_install_failed fs run patchAt j _ b t acc k h1]
      obtain ⟨s1, s2, s3, s4⟩ :=
        ih (j + 1) (some (installDependencies fs (run j))) t
          (acc ++ patchList patchAt j) (k + 1)
          (fun i hi1 hi2 => h i (by omega) (by omega))
      refine ⟨s1, s2.trans (by omega), ?_, ?_⟩
      · rw [s3, hidx]
      · intro ht hpre
        exact s4 ht (fun i hi1 hi2 => hpre i (by omega) (by omega))
    · by_cases h2 : (buildProject fs (run j)).status = BuildStatusE.failed
      · rw [autoFixAux_cons_build_failed fs run patchAt j _ b t acc k h1 h2]
        obtain ⟨s1, s2, s3, s4⟩ :=
          ih (j + 1) (some (buildProject fs (run j))) t
            (acc ++ patchList patchAt j) (k + 1)
            (fun i hi1 hi2 => h i (by omega) (by omega))
        refine ⟨s1, s2.trans (by omega), ?_, ?_⟩
        · rw [s3, hidx]
        · intro ht hpre
          exact s4 ht (fun i hi1 hi2 => hpre i (by omega) (by omega))
      · have h3 : (runTests fs (run j)).status = TestStatusE.failed := by
          rcases h j (Nat.le_refl j) (by omega) with h' | h' | h'
          · exact absurd h' h1
          · exact absurd h' h2
          · exact h'
        rw [autoFixAux_cons_test_failed fs run patchAt j _ b t acc k h1 h2 h3]
        obtain ⟨s1, s2, s3, s4⟩ :=
          ih (j + 1) (some (buildProject fs (run j)))
            (some (runTests fs (run j))) (acc ++ patchList patchAt j) (k + 1)
            (fun i hi1 hi2 => h i (by omega) (by omega))
        refine ⟨s1, s2.trans (by omega), ?_, ?_⟩
        · rw [s3, hidx]
        · intro _ hpre
          exact absurd (hpre j (Nat.le_refl j) (by omega))
            (fun hp => hp.elim (fun a => h1 a) (fun c => h2 c))

/- ### Theorems for C4 -/

/-- Claim C4: on an input failing every iteration, the loop with the
baseline (free) tier executes exactly 3 iterations before returning the
exhausted result and the elevated (pro) tier exactly 15; and the tier
enters the loop only through `maxIterationsFor`, so subscriptions mapped
to the same budget produce identical results. -/
theorem tier_budgets_and_tier_independence (fs : FS)
    (run : Nat → Cmd → CmdResult) (patchAt : Nat → Option PatchStub)
    (h : ∀ i, iterFails fs (run i)) :
    ((autoFixLoop fs run patchAt (maxIterationsFor "free")).iterationsRun = 3
      ∧ (autoFixLoop fs run patchAt (maxIterationsFor "free")).success = false)
    ∧ ((autoFixLoop fs run patchAt (maxIterationsFor "pro")).iterationsRun = 15
      ∧ (autoFixLoop fs run patchAt (maxIterationsFor "pro")).success = false)
    ∧ (∀ s1 s2 : String, maxIterationsFor s1 = maxIterationsFor s2 →
        autoFixLoop fs run patchAt (maxIterationsFor s1)
          = autoFixLoop fs run patchAt (maxIterationsFor s2)) := by
  have e1 : maxIterationsFor "free" = 3 := by decide
  have e2 : maxIterationsFor "pro" = 15 := by decide
  rw [e1, e2]
  have hfree := autoFixAux_exhaust fs run patchAt 2 1 none none [] 0
    (fun i _ _ => h i)
  have hpro := autoFixAux_exhaust fs run patchAt 14 1 none none [] 0
    (fun i _ _ => h i)
  exact ⟨⟨hfree.2.1, hfree.1⟩, ⟨hpro.2.1, hpro.1⟩,
    fun s1 s2 he => by rw [he]⟩

/-- The project state of the all-failing witness runs: a `package.json`
exists and every command exits with code 1. -/
def fsAllFail : FS := ⟨true, false⟩

/-- Command oracle of the all-failing witness runs. -/
def runAllFail : Nat → Cmd → CmdResult := fun _ _ => ⟨1, "", ""⟩

/-- Patch oracle that never finds a target. -/
def patchAtNone : Nat → Option PatchStub := fun _ => none

/-- Witness for `tier_budgets_and_tier_independence` on the concrete
all-failing input. -/
theorem tier_budgets_and_tier_independence_witness :
    ((autoFixLoop fsAllFail runAllFail patchAtNone (maxIterationsFor "free")).iterationsRun = 3
      ∧ (autoFixLoop fsAllFail runAllFail patchAtNone (maxIterationsFor "free")).success = false)
    ∧ ((autoFixLoop fsAllFail runAllFail patchAtNone (maxIterationsFor "pro")).iterationsRun = 15
      ∧ (autoFixLoop fsAllFail runAllFail patchAtNone (maxIterationsFor "pro")).success = false)
    ∧ (∀ s1 s2 : String, maxIterationsFor s1 = maxIterationsFor s2 →
        autoFixLoop fsAllFail runAllFail patchAtNone (maxIterationsFor s1)
          = autoFixLoop fsAllFail runAllFail patchAtNone (maxIterationsFor s2)) :=
  tier_budgets_and_tier_independence fsAllFail runAllFail patchAtNone
    (fun _ => Or.inl rfl)

/- ### Theorems for C8 -/

/-- Claim C8: when every iteration up to the budget `n ≥ 1` fails, the
loop returns the exhausted (non-success) outcome carrying the last
iteration's build attempt; and when additionally no iteration ever
reached the test stage, the returned test record is the synthesized
failed record with `passed = failed = total = 0`. -/
theorem exhausted_run_result (fs : FS) (run : Nat → Cmd → CmdResult)
    (patchAt : Nat → Option PatchStub) (n : Nat) (hn : 1 ≤ n)
    (hfail : ∀ i, 1 ≤ i → i ≤ n → iterFails fs (run i)) :
    (autoFixLoop fs run patchAt n).success = false
    ∧ (autoFixLoop fs run patchAt n).build = some (lastBuildOutcome fs (run n))
    ∧ ((∀ i, 1 ≤ i → i ≤ n → preTestFails fs (run i)) →
        (autoFixLoop fs run patchAt n).tests = synthesizedTestInfo
        ∧ (autoFixLoop fs run patchAt n).tests.passed = 0
        ∧ (autoFixLoop fs run patchAt n).tests.failed = 0
        ∧ (autoFixLoop fs run patchAt n).tests.total = 0
        ∧ (autoFixLoop fs run patchAt n).tests.status = TestStatusE.failed) := by
  obtain ⟨m, rfl⟩ : ∃ m, n = m + 1 := ⟨n - 1, by omega⟩
  have hidx : 1 + m = m + 1 := by omega
  obtain ⟨s1, _, s3, s4⟩ := autoFixAux_exhaust fs run patchAt m 1 none none [] 0
    (fun i hi1 hi2 => hfail i hi1 (by omega))
  refine ⟨s1, ?_, ?_⟩
  · rw [autoFixLoop] at *
    rw [s3, hidx]
  · intro hpre
    have ht := s4 rfl (fun i hi1 hi2 => hpre i hi1 (by omega))
    rw [autoFixLoop] at *
    rw [ht]
    exact ⟨rfl, rfl, rfl, rfl, rfl⟩

/-- Witness for `exhausted_run_result` on the concrete all-failing input
with budget 2. -/
theorem exhausted_run_result_witness :
    (autoFixLoop fsAllFail runAllFail patchAtNone 2).success = false
    ∧ (autoFixLoop fsAllFail runAllFail patchAtNone 2).build
        = some (lastBuildOutcome fsAllFail (runAllFail 2))
    ∧ ((∀ i, 1 ≤ i → i ≤ 2 → preTestFails fsAllFail (runAllFail i)) →
        (autoFixLoop fsAllFail runAllFail patchAtNone 2).tests = synthesizedTestInfo
        ∧ (autoFixLoop fsAllFail runAllFail patchAtNone 2).tests.passed = 0
        ∧ (autoFixLoop fsAllFail runAllFail patchAtNone 2).tests.failed = 0
        ∧ (autoFixLoop fsAllFail runAllFail patchAtNone 2).tests.total = 0
        ∧ (autoFixLoop fsAllFail runAllFail patchAtNone 2).tests.status
            = TestStatusE.failed) :=
  exhausted_run_result fsAllFail runAllFail patchAtNone 2 (by decide)
    (fun _ _ _ => Or.inl rfl)

/- ### Theorems for C9 -/

/-- Claim C9 (the code, evaluated at the failing input): `_auto_fix_loop`
accepts `max_iterations = 0` unclamped — the `for` loop body never runs
and the function returns with `build_info = None` (and a synthesized test
record), the ill-formed result whose `status` field the caller
`build_mvp` then dereferences. -/
theorem zero_budget_returns_no_build (fs : FS) (run : Nat → Cmd → CmdResult)
    (patchAt : Nat → Option PatchStub) :
    autoFixLoop fs run patchAt 0
      = ⟨none, synthesizedTestInfo, [], false, 0⟩
    ∧ (autoFixLoop fs run patchAt 0).build = none :=
  ⟨rfl, rfl⟩

/- ### Theorems for C10 -/

/-- Claim C10: with neither `package.json` nor `requirements.txt` in the
workspace, install, build, and test all report success immediately — the
test record being the zero-suite `passed = failed = total = 0` SUCCESS
record — so for any budget `n ≥ 1` the loop returns overall success on
iteration 1 with an empty patch list, although no test was executed. -/
theorem no_manifests_vacuous_success (run : Nat → Cmd → CmdResult)
    (patchAt : Nat → Option PatchStub) (n : Nat) (hn : 1 ≤ n) :
    autoFixLoop ⟨false, false⟩ run patchAt n
      = ⟨some ⟨BuildStatusE.success, ""⟩,
          ⟨TestStatusE.success, [], 0, 0, 0⟩, [], true, 1⟩ := by
  obtain ⟨m, rfl⟩ : ∃ m, n = m + 1 := ⟨n - 1, by omega⟩
  unfold autoFixLoop
  rw [List.range'_succ 1 m 1]
  rw [autoFixAux_cons_success ⟨false, false⟩ run patchAt 1 _ none none [] 0
    (fun h' => BuildStatusE.noConfusion h')
    (fun h' => BuildStatusE.noConfusion h')
    (fun h' => TestStatusE.noConfusion h')]
  rfl

/-- Witness for `no_manifests_vacuous_success` with budget 1 and the
all-failing command oracle (the commands are never consulted). -/
theorem no_manifests_vacuous_success_witness :
    autoFixLoop ⟨false, false⟩ runAllFail patchAtNone 1
      = ⟨some ⟨BuildStatusE.success, ""⟩,
          ⟨TestStatusE.success, [], 0, 0, 0⟩, [], true, 1⟩ :=
  no_manifests_vacuous_success runAllFail patchAtNone 1 (by decide)

/- ### Theorems for C7 -/

/-- Every patch `_apply_fix` contributes at iteration `i` carries
iteration number `i`. -/
theorem patchList_iteration (patchAt : Nat → Option PatchStub) (i : Nat) :
    ∀ p ∈ patchList patchAt i, p.iteration = i := by
  unfold patchList
  cases patchAt i with
  | none => intro p hp; cases hp
  | some s =>
    intro p hp
    rcases List.mem_singleton.mp hp with rfl
    rfl

/-- At most one patch is appended per iteration. -/
theorem patchList_length_le (patchAt : Nat → Option PatchStub) (i : Nat) :
    (patchList patchAt i).length ≤ 1 := by
  unfold patchList
  cases patchAt i <;> simp

/-- Helper: the audit-trail invariants of the fix loop, generalized over
the starting iteration index, the accumulated patches, and the executed
iteration counter. -/
theorem autoFixAux_patch_invariants (fs : FS) (run : Nat → Cmd → CmdResult)
    (patchAt : Nat → Option PatchStub) :
    ∀ (m j : Nat) (b : Option BuildInfoE) (t : Option TestInfoE)
      (acc : List PatchInfoE) (k : Nat)
      (res : FixLoopResult),
      res = autoFixAux fs run patchAt (List.range' j m) b t acc k →
      (∀ p ∈ acc, p.iteration < j) →
      List.Pairwise (· < ·) (acc.map PatchInfoE.iteration) →
      List.Pairwise (· < ·) (res.patches.map PatchInfoE.iteration)
      ∧ (∀ p ∈ res.patches, p.iteration < j + m)
      ∧ k ≤ res.iterationsRun
      ∧ (res.success = true →
          k < res.iterationsRun
          ∧ res.patches.length ≤ acc.length + (res.iterationsRun - k) - 1)
      ∧ (res.success = false → res.patches.length ≤ acc.length + m) := by
  intro m
  induction m with
  | zero =>
    intro j b t acc k res hres hlt hpw
    subst hres
    rw [List.range'_zero, autoFixAux_nil]
    refine ⟨hpw, fun p hp => ?_, Nat.le_refl k, ?_, fun _ => by simp⟩
    · have := hlt p hp
      omega
    · intro hs
      exact Bool.noConfusion hs
  | succ m ih =>
    intro j b t acc k res hres hlt hpw
    have hrange : List.range' j (m + 1) = j :: List.range' (j + 1) m :=
      List.range'_succ j m 1
    rw [hrange] at hres
    have hlt' : ∀ p ∈ acc ++ patchList patchAt j, p.iteration < j + 1 := by
      intro p hp
      rcases List.mem_append.mp hp with hp' | hp'
      · have := hlt p hp'
        omega
      · rw [patchList_iteration patchAt j p hp']
        omega
    have hpw' : List.Pairwise (· < ·)
        ((acc ++ patchList patchAt j).map PatchInfoE.iteration) := by
      rw [List.map_append]
      rw [List.pairwise_append]
      refine ⟨hpw, ?_, ?_⟩
      · unfold patchList
        cases patchAt j <;> simp
      · intro x hx y hy
        obtain ⟨p, hp, rfl⟩ := List.mem_map.mp hx
        obtain ⟨q, hq, rfl⟩ := List.mem_map.mp hy
        rw [patchList_iteration patchAt j q hq]
        exact hlt p hp
    have hlen' : (acc ++ patchList patchAt j).length ≤ acc.length + 1 := by
      rw [List.length_append]
      have := patchList_length_le patchAt j
      omega
    by_cases h1 : (installDependencies fs (run j)).status = BuildStatusE.failed
    · rw [autoFixAux_cons_install_failed fs run patchAt j _ b t acc k h1] at hres
      obtain ⟨s1, s2, s3, s4, s5⟩ := ih (j + 1) (some (installDependencies fs (run j)))
        t (acc ++ patchList patchAt j) (k + 1) res hres hlt' hpw'
      refine ⟨s1, fun p hp => by have := s2 p hp; omega, by omega, ?_, ?_⟩
      · intro hs
        obtain ⟨u1, u2⟩ := s4 hs
        exact ⟨by omega, by omega⟩
      · intro hs
        have := s5 hs
        omega
    · by_cases h2 : (buildProject fs (run j)).status = BuildStatusE.failed
      · rw [autoFixAux_cons_build_failed fs run patchAt j _ b t acc k h1 h2] at hres
        obtain ⟨s1, s2, s3, s4, s5⟩ := ih (j + 1) (some (buildProject fs (run j)))
          t (acc ++ patchList patchAt j) (k + 1) res hres hlt' hpw'
        refine ⟨s1, fun p hp => by have := s2 p hp; omega, by omega, ?_, ?_⟩
        · intro hs
          obtain ⟨u1, u2⟩ := s4 hs
          exact ⟨by omega, by omega⟩
        · intro hs
          have := s5 hs
          omega
      · by_cases h3 : (runTests fs (run j)).status = TestStatusE.failed
        · rw [autoFixAux_cons_test_failed fs run patchAt j _ b t acc k h1 h2 h3] at hres
          obtain ⟨s1, s2, s3, s4, s5⟩ := ih (j + 1) (some (buildProject fs (run j)))
            (some (runTests fs (run j))) (acc ++ patchList patchAt j) (k + 1)
            res hres hlt' hpw'
          refine ⟨s1, fun p hp => by have := s2 p hp; omega, by omega, ?_, ?_⟩
          · intro hs
            obtain ⟨u1, u2⟩ := s4 hs
            exact ⟨by omega, by omega⟩
          · intro hs
            have := s5 hs
            omega
        · rw [autoFixAux_cons_success fs run patchAt j _ b t acc k h1 h2 h3] at hres
          subst hres
          dsimp only
          refine ⟨hpw, fun p hp => by have := hlt p hp; omega, by omega, ?_, ?_⟩
          · intro _
            exact ⟨by omega, by omega⟩
          · intro hs
            exact Bool.noConfusion hs

/-- Claim C7: the returned patch list has strictly increasing iteration
numbers, none exceeding the budget `n`; a run that returns success after
`iterationsRun = k` iterations holds at most `k - 1` patches, and an
exhausted run at budget `n` holds at most `n`. -/
theorem patch_audit_invariants (fs : FS) (run : Nat → Cmd → CmdResult)
    (patchAt : Nat → Option PatchStub) (n : Nat) :
    List.Pairwise (· < ·)
      ((autoFixLoop fs run patchAt n).patches.map PatchInfoE.iteration)
    ∧ (∀ p ∈ (autoFixLoop fs run patchAt n).patches, p.iteration ≤ n)
    ∧ ((autoFixLoop fs run patchAt n).success = true →
        (autoFixLoop fs run patchAt n).patches.length
          ≤ (autoFixLoop fs run patchAt n).iterationsRun - 1)
    ∧ ((autoFixLoop fs run patchAt n).success = false →
        (autoFixLoop fs run patchAt n).patches.length ≤ n) := by
  obtain ⟨s1, s2, s3, s4, s5⟩ := autoFixAux_patch_invariants fs run patchAt n 1
    none none [] 0 (autoFixLoop fs run patchAt n) rfl
    (fun p hp => by cases hp) List.Pairwise.nil
  refine ⟨s1, fun p hp => by have := s2 p hp; omega, ?_, ?_⟩
  · intro hs
    obtain ⟨u1, u2⟩ := s4 hs
    simpa using u2
  · intro hs
    simpa using s5 hs

/-- Witness for `patch_audit_invariants` on the concrete all-failing
input at budget 3 (the implications inside are discharged by the theorem
itself). -/
theorem patch_audit_invariants_witness :
    List.Pairwise (· < ·)
      ((autoFixLoop fsAllFail runAllFail patchAtNone 3).patches.map PatchInfoE.iteration)
    ∧ (∀ p ∈ (autoFixLoop fsAllFail runAllFail patchAtNone 3).patches, p.iteration ≤ 3)
    ∧ ((autoFixLoop fsAllFail runAllFail patchAtNone 3).success = true →
        (autoFixLoop fsAllFail runAllFail patchAtNone 3).patches.length
          ≤ (autoFixLoop fsAllFail runAllFail patchAtNone 3).iterationsRun - 1)
    ∧ ((autoFixLoop fsAllFail runAllFail patchAtNone 3).success = false →
        (autoFixLoop fsAllFail runAllFail patchAtNone 3).patches.length ≤ 3) :=
  patch_audit_invariants fsAllFail runAllFail patchAtNone 3
